import Mathlib

/-!
Shallow embedding of the address cleaning / completion / enrichment pipeline of
`src/reverse_geocoding_batch_processor/address_enhancer.py` (the identical copy of
`clean_address_text` in `reverse_geocoding_batch.py` is covered by the same
definition).  Python strings are modelled as `String` / `List Char`; floats only
ever flow through the code or are tested for truthiness, so they are modelled as
`Rat`; dictionaries with a fixed key set are modelled as structures with
`Option` fields (a `none` field is an absent key); provider exceptions are data
(`PResp.raises msg` carries `str(e)`).  The regular expressions of the source
are hand-compiled to decidable scanners with Python semantics (`\b` word
boundaries, `re.sub` left-to-right non-overlapping replacement on the original
string).  Python's Unicode-aware `\s`, `\w`, `\d` classes are modelled on the
character sets that actually occur in addresses (ASCII whitespace, ASCII word
characters, ASCII digits).
-/

/-- Python `\s` (the whitespace class used by `re.sub(r'\s+', ' ', ...)`,
`str.strip` and `str.split`), restricted to ASCII whitespace. -/
def isWsC (c : Char) : Bool :=
  c = ' ' || c = '\t' || c = '\n' || c = '\r' || c = Char.ofNat 11 || c = Char.ofNat 12

/-- The fixed symbol set stripped by `clean_address_text`:
`? ¿ ! ¡ @ # $ % ^ & * ( ) _ + = < > \x7b \x7d [ ] | \ / : ; " ' backtick ~`. -/
def symChars : List Char :=
  ['?', '¿', '!', '¡', '@', '#', '$', '%', '^', '&', '*', '(', ')', '_', '+', '=',
   '<', '>', Char.ofNat 123, Char.ofNat 125, '[', ']', '|', '\\', '/', ':', ';',
   Char.ofNat 34, Char.ofNat 39, Char.ofNat 96, '~']

def isSymC (c : Char) : Bool := symChars.contains c

/-- Embeds `re.sub(r'[?¿!¡@#$%^&*()_+=<>\x7b\x7d[\]|\\/:;"\x27`~]', '', text)`. -/
def removeSyms (l : List Char) : List Char := l.filter (fun c => !isSymC c)

/-- Keys of the accent replacement table of `clean_address_text` (aggressive mode). -/
def accentKeys : List Char :=
  ['á', 'é', 'í', 'ó', 'ú', 'à', 'è', 'ì', 'ò', 'ù', 'ä', 'ë', 'ï', 'ö', 'ü',
   'â', 'ê', 'î', 'ô', 'û', 'ã', 'ẽ', 'ĩ', 'õ', 'ũ', 'ñ', 'ç', 'ß']

/-- The accent replacement table of `clean_address_text` (aggressive mode), as a
per-character expansion.  The Python code performs the 28 `str.replace` calls in
sequence; since no key occurs in any replacement value the sequential replaces
are exactly this character-wise expansion. -/
def foldAccent (c : Char) : List Char :=
  if c = 'á' then ['a'] else if c = 'é' then ['e'] else if c = 'í' then ['i']
  else if c = 'ó' then ['o'] else if c = 'ú' then ['u']
  else if c = 'à' then ['a'] else if c = 'è' then ['e'] else if c = 'ì' then ['i']
  else if c = 'ò' then ['o'] else if c = 'ù' then ['u']
  else if c = 'ä' then ['a'] else if c = 'ë' then ['e'] else if c = 'ï' then ['i']
  else if c = 'ö' then ['o'] else if c = 'ü' then ['u']
  else if c = 'â' then ['a'] else if c = 'ê' then ['e'] else if c = 'î' then ['i']
  else if c = 'ô' then ['o'] else if c = 'û' then ['u']
  else if c = 'ã' then ['a'] else if c = 'ẽ' then ['e'] else if c = 'ĩ' then ['i']
  else if c = 'õ' then ['o'] else if c = 'ũ' then ['u']
  else if c = 'ñ' then ['n'] else if c = 'ç' then ['c']
  else if c = 'ß' then ['s', 's'] else [c]

def foldAccents (l : List Char) : List Char := (l.map foldAccent).flatten

/-- Embeds `re.sub(r'\s+', ' ', l)`: every maximal run of whitespace becomes one space.
The flag records whether the previous character was part of a whitespace run. -/
def squeezeWs : Bool → List Char → List Char
  | _, [] => []
  | prevWs, c :: cs =>
    if isWsC c then
      if prevWs then squeezeWs true cs else ' ' :: squeezeWs true cs
    else c :: squeezeWs false cs

/-- Remove trailing whitespace. -/
def stripEnd (l : List Char) : List Char := ((l.reverse).dropWhile isWsC).reverse

/-- Python `str.strip()`. -/
def stripWs (l : List Char) : List Char := stripEnd (l.dropWhile isWsC)

/-- Body of `clean_address_text` on the character list (symbol strip, optional
accent folding, whitespace collapse, strip). -/
def cleanL (aggressive : Bool) (l : List Char) : List Char :=
  let l1 := removeSyms l
  let l2 := if aggressive then foldAccents l1 else l1
  stripWs (squeezeWs false l2)

/-- Embeds `clean_address_text(text, aggressive)` (address_enhancer.py lines 23-63).
`if not text: return text` is the empty-string guard. -/
def clean_address_text (text : String) (aggressive : Bool) : String :=
  if text = "" then text else String.mk (cleanL aggressive text.data)

/-- Python `\w` (ASCII part): letters, digits, underscore. -/
def isWordChar (c : Char) : Bool := c.isAlphanum || c = '_'

def isWordOpt : Option Char → Bool
  | some c => isWordChar c
  | none => false

/-- A `\b` word boundary sits between characters `a` and `b` (`none` = beyond
the string) iff exactly one side is a word character. -/
def boundaryB (a b : Option Char) : Bool := isWordOpt a != isWordOpt b

/-- Embeds `re.sub(r'\b' + re.escape(pat) + r'\b', rep, s)` for a literal, nonempty
`pat`: scan left to right over the original string, replacing each
non-overlapping boundary-delimited occurrence.  `prev` is the character left of
the scan position in the original string; fuel is the length of the remaining
input (each step consumes at least one character). -/
def subWordF (pat rep : List Char) : Nat → Option Char → List Char → List Char
  | 0, _, l => l
  | _ + 1, _, [] => []
  | fuel + 1, prev, c :: cs =>
    if pat ≠ [] && pat.isPrefixOf (c :: cs)
        && boundaryB prev (some c)
        && boundaryB pat.getLast? ((c :: cs).drop pat.length).head? then
      rep ++ subWordF pat rep fuel pat.getLast? ((c :: cs).drop pat.length)
    else
      c :: subWordF pat rep fuel (some c) cs

def subWord (pat rep l : List Char) : List Char := subWordF pat rep l.length none l

/-- Embeds `common_abbreviations` (address_enhancer.py lines 81-99): canonical word,
its abbreviation spellings, and whether the entry belongs to the Spanish set
(the Python code gates Spanish entries on `target_language == 'es'` and English
entries on `'en'` by listing the keys explicitly). -/
def common_abbreviations : List (List Char × List (List Char) × Bool) :=
  [("calle".data, [['c', '/'], ['c', '\\'], "cl".data, "cl.".data, "call".data], true),
   ("avenida".data, ["av".data, "av.".data, "avda".data, "avda.".data, "aven".data], true),
   ("plaza".data, ["pl".data, "pl.".data, "plz".data], true),
   ("paseo".data, ["ps".data, "ps.".data, "pso".data], true),
   ("carrera".data, ["cr".data, "cr.".data, "cra".data, "cra.".data], true),
   ("diagonal".data, ["dg".data, "dg.".data, "diag".data], true),
   ("transversal".data, ["tv".data, "tv.".data, "trans".data], true),
   ("street".data, ["st".data, "st.".data, "str".data, "str.".data], false),
   ("avenue".data, ["ave".data, "ave.".data, "av".data], false),
   ("boulevard".data, ["blvd".data, "blvd.".data, "boul".data], false),
   ("road".data, ["rd".data, "rd.".data], false),
   ("drive".data, ["dr".data, "dr.".data], false),
   ("lane".data, ["ln".data, "ln.".data], false),
   ("court".data, ["ct".data, "ct.".data], false),
   ("place".data, ["pl".data, "pl.".data], false)]

/-- Apply one table entry: substitute each abbreviation spelling in turn. -/
def applyAbbrevs (full : List Char) (abbrevs : List (List Char)) (l : List Char) : List Char :=
  abbrevs.foldl (fun acc ab => subWord ab full acc) l

/-- Python `str.capitalize()`: first character uppercased, rest lowercased. -/
def capWord : List Char → List Char
  | [] => []
  | c :: cs => c.toUpper :: cs.map Char.toLower

/-- Python `str.split()` (split on whitespace runs, dropping empty pieces);
`cur` accumulates the current word reversed. -/
def wsplitAux (cur : List Char) : List Char → List (List Char)
  | [] => if cur = [] then [] else [cur.reverse]
  | c :: cs =>
    if isWsC c then
      if cur = [] then wsplitAux [] cs else cur.reverse :: wsplitAux [] cs
    else wsplitAux (c :: cur) cs

def wsplit (l : List Char) : List (List Char) := wsplitAux [] l

/-- Embeds `' '.join(words)` on character lists. -/
def joinSp (ws : List (List Char)) : List Char := (ws.intersperse [' ']).flatten

/-- Embeds `normalize_address_format(address, target_language)` (lines 101-138):
lowercase and strip, expand the language-gated abbreviation table with
whole-word matches, capitalize every word, collapse whitespace. -/
def normalize_address_format (address : String) (target_language : String) : String :=
  if address = "" then address
  else
    let lowered := stripWs (address.data.map Char.toLower)
    let substituted := common_abbreviations.foldl
      (fun acc entry =>
        if (target_language = "es" && entry.2.2) || (target_language = "en" && !entry.2.2) then
          applyAbbrevs entry.1 entry.2.1 acc
        else acc)
      lowered
    let capitalized := joinSp ((wsplit substituted).map capWord)
    String.mk (stripWs (squeezeWs false capitalized))

/-- Substring containment (`re.search` of a literal alternative / Python `in`). -/
def containsL (pat : List Char) : List Char → Bool
  | [] => pat.isPrefixOf []
  | c :: cs => pat.isPrefixOf (c :: cs) || containsL pat cs

/-- Consume exactly `n` digits, returning the remainder. -/
def takeDigits : Nat → List Char → Option (List Char)
  | 0, l => some l
  | _ + 1, [] => none
  | n + 1, c :: cs => if c.isDigit then takeDigits n cs else none

/-- Embeds `\b` after a word character: the next character is absent or not a word char. -/
def nonWordNext : List Char → Bool
  | [] => true
  | c :: _ => !isWordChar c

/-- Embeds `\d{5}(-\d{4})?\b` anchored at the current position (the leading `\b` is
checked by the caller).  The optional group backtracks. -/
def usZipAt (l : List Char) : Bool :=
  match takeDigits 5 l with
  | none => false
  | some rest =>
    (match rest with
     | '-' :: r2 =>
       (match takeDigits 4 r2 with
        | some r3 => nonWordNext r3
        | none => false)
     | _ => false) || nonWordNext rest

/-- Tail `\d[A-Z]\d\b` of the Canadian postal alternative. -/
def caPostalEnd : List Char → Bool
  | d2 :: e :: d3 :: r => d2.isDigit && e.isUpper && d3.isDigit && nonWordNext r
  | _ => false

/-- Embeds `[A-Z]\d[A-Z]\s?\d[A-Z]\d\b` anchored at the current position (the optional
`\s?` backtracks, hence the disjunction). -/
def caPostalAt (l : List Char) : Bool :=
  match l with
  | a :: d1 :: b :: rest =>
    a.isUpper && d1.isDigit && b.isUpper &&
      ((match rest with
        | w :: r2 => isWsC w && caPostalEnd r2
        | [] => false) || caPostalEnd rest)
  | _ => false

/-- Embeds `re.search(r'\b\d{5}(-\d{4})?\b|\b[A-Z]\d[A-Z]\s?\d[A-Z]\d\b', address)`:
try every position, tracking the previous character for the leading `\b`
(both alternatives start with a word character, so the boundary holds iff the
previous character is not a word character). -/
def hasPostalAux (prev : Option Char) : List Char → Bool
  | [] => false
  | c :: cs =>
    (!isWordOpt prev && (usZipAt (c :: cs) || caPostalAt (c :: cs)))
      || hasPostalAux (some c) cs

def hasPostalLike (l : List Char) : Bool := hasPostalAux none l

def hasDigitL (l : List Char) : Bool := l.any Char.isDigit

/-- The street-keyword alternation of `detect_incomplete_address`
(`re.search` of unanchored literal alternatives = substring test). -/
def streetKeywords : List (List Char) :=
  ["calle".data, "avenida".data, "street".data, "avenue".data, "road".data,
   "drive".data, ['c', '/'], "av".data, "st".data, "rd".data]

/-- Result of `detect_incomplete_address` (`components_found` is absent in the
empty-address report). -/
structure CompletenessReport where
  is_complete : Bool
  missing_components : List String
  confidence : Rat
  components_found : Option (Bool × Bool × Bool × Bool)
deriving DecidableEq, Repr

/-- Embeds `detect_incomplete_address(address)` (lines 140-190). -/
def detect_incomplete_address (address : String) : CompletenessReport :=
  if address = "" then
    { is_complete := false, missing_components := ["address"], confidence := 0,
      components_found := none }
  else
    let addressLower := address.data.map Char.toLower
    let has_street_number := hasDigitL address.data
    let has_street_name := streetKeywords.any (fun k => containsL k addressLower)
    let has_city := address.data.contains ','
    let has_postal_code := hasPostalLike address.data
    let missing :=
      (if has_street_number then [] else ["street_number"])
        ++ (if has_street_name then [] else ["street_name"])
        ++ (if has_city then [] else ["city"])
        ++ (if has_postal_code then [] else ["postal_code"])
    { is_complete := missing.length = 0,
      missing_components := missing,
      confidence := ((4 - missing.length : Nat) : Rat) / 4,
      components_found := some (has_street_number, has_street_name, has_city, has_postal_code) }

/-- Python `str.replace(pat, rep)`: replace every non-overlapping occurrence
left to right (fuel = remaining length). -/
def replaceAllF (pat rep : List Char) : Nat → List Char → List Char
  | 0, l => l
  | _ + 1, [] => []
  | fuel + 1, c :: cs =>
    if pat ≠ [] && pat.isPrefixOf (c :: cs) then
      rep ++ replaceAllF pat rep fuel ((c :: cs).drop pat.length)
    else c :: replaceAllF pat rep fuel cs

def replaceAll (pat rep l : List Char) : List Char := replaceAllF pat rep l.length l

/-- Python `str.title()`: uppercase a letter that does not follow a letter,
lowercase a letter that does; other characters pass through. -/
def titleAux : Bool → List Char → List Char
  | _, [] => []
  | prevAlpha, c :: cs =>
    (if c.isAlpha then (if prevAlpha then c.toLower else c.toUpper) else c)
      :: titleAux c.isAlpha cs

def titleL (l : List Char) : List Char := titleAux false l

/-- Embeds `common_corrections` of `suggest_address_corrections` (lines 209-221), in
dictionary insertion order. -/
def common_corrections : List (List Char × List Char) :=
  [("callle".data, "calle".data), ("avenída".data, "avenida".data),
   ("avendia".data, "avenida".data), ("plasa".data, "plaza".data),
   ("carrrera".data, "carrera".data), ("stret".data, "street".data),
   ("streat".data, "street".data), ("avenu".data, "avenue".data),
   ("boulvard".data, "boulevard".data)]

/-- Embeds `suggest_address_corrections(address, max_suggestions)` (lines 192-234). -/
def suggest_address_corrections (address : String) (max_suggestions : Nat) : List String :=
  if address = "" then []
  else
    let step := common_corrections.foldl
      (fun (acc : List Char × List String) ec =>
        if containsL ec.1 acc.1 then
          let corrected := replaceAll ec.1 ec.2 acc.1
          (corrected, acc.2 ++ [String.mk (titleL corrected)])
        else acc)
      (address.data.map Char.toLower, [])
    let suggestions := step.2
    let normalized := normalize_address_format address "es"
    let suggestions :=
      if normalized ≠ address && !suggestions.contains normalized then
        suggestions ++ [normalized]
      else suggestions
    suggestions.take max_suggestions

/-- Timezone annotation as delivered by the provider (each subfield may be
absent; `enrich_location_data` applies `.get(key, default)`). -/
structure TZAnn where
  name : Option String := none
  offset_sec : Option Int := none
  offset_string : Option String := none
deriving DecidableEq, Repr

/-- Provider `annotations` mapping.  Keys the code never inspects structurally
(currency, what3words, Mercator, OSM, UN_M49, DMS payloads) are modelled as
opaque optional strings; an absent field is an absent key. -/
structure Annotations where
  timezone : Option TZAnn := none
  continent : Option String := none
  currency : Option String := none
  callingcode : Option String := none
  flag : Option String := none
  geohash : Option String := none
  what3words : Option String := none
  MGRS : Option String := none
  Maidenhead : Option String := none
  Mercator : Option String := none
  OSM : Option String := none
  UN_M49 : Option String := none
  DMS : Option String := none
deriving DecidableEq, Repr

/-- One provider candidate: `formatted`, `components` (string-valued entries,
in mapping order), `geometry` lat/lng, provider `confidence` (0-10 scale,
absent key modelled as `none`; the code applies `.get('confidence', 5)`), and
`annotations`. -/
structure Candidate where
  formatted : String
  components : List (String × String) := []
  geometry : Rat × Rat := (0, 0)
  confidence : Option Rat := none
  annotations : Annotations := {}
deriving DecidableEq, Repr

/-- A provider call either returns a candidate list or raises (`raises msg`
carries `str(e)`). -/
inductive PResp where
  | ok : List Candidate → PResp
  | raises : String → PResp
deriving DecidableEq, Repr

/-- The OpenCage client held by `AddressEnhancer`, as an oracle.
`forward query language?` models `geocoder.geocode(query, language=...)`
(`none` when the keyword is not passed, as in `enrich_location_data`);
`reverse lat lng language? no_annotations` models
`geocoder.reverse_geocode(lat, lng, ...)`. -/
structure Provider where
  forward : String → Option String → PResp
  reverse : Rat → Rat → Option String → Bool → PResp

/-- Clean every (string) component value when `clean_special_chars` is set
(lines 281-283 / 310-312 / 398-400). -/
def cleanComponents (clean_special_chars aggressive : Bool)
    (comps : List (String × String)) : List (String × String) :=
  if clean_special_chars then
    comps.map (fun kv => (kv.1, clean_address_text kv.2 aggressive))
  else comps

/-- Leftmost maximal digit run: `re.search(r'\d+', s).group()`. -/
def firstDigitRun (l : List Char) : List Char :=
  (l.dropWhile (fun c => !c.isDigit)).takeWhile Char.isDigit

/-- Embeds `_merge_address_data(partial_address, full_address, components)`
(lines 334-355).  `components` is accepted and ignored, as in the source. -/
def merge_address_data (partial_address full_address : String)
    (components : List (String × String)) : String :=
  let _ := components
  if stripWs partial_address.data = [] then full_address
  else
    let partial_words := wsplit (partial_address.data.map Char.toLower)
    let full_words := wsplit (full_address.data.map Char.toLower)
    if partial_words.any (fun w => !full_words.contains w) then
      if hasDigitL partial_address.data && !hasDigitL full_address.data then
        String.mk (firstDigitRun partial_address.data) ++ " " ++ full_address
      else full_address
    else full_address

/-- Result record of `complete_address` (lines 252-259): the always-present
keys are plain fields, the conditionally-added keys (`coordinates`, `error`)
are `Option` fields. -/
structure CompletionResult where
  original_address : String
  completed_address : String
  method_used : String
  confidence : Rat
  components : List (String × String)
  suggestions : List String
  coordinates : Option (Rat × Rat) := none
  error : Option String := none
deriving DecidableEq, Repr

/-- Forward-lookup phase of `complete_address` (strategy 2, lines 297-326),
starting from result record `base`; also appends the correction suggestions
(line 326).  Raising jumps to the `except` handler (lines 328-330). -/
def completeForward (p : Provider) (partial_address : String) (language : String)
    (clean_special_chars aggressive : Bool) (base : CompletionResult) : CompletionResult :=
  let afterGeocode : CompletionResult ⊕ String :=
    if stripWs partial_address.data ≠ [] then
      match p.forward partial_address (some language) with
      | .raises msg => .inr msg
      | .ok [] => .inl base
      | .ok (c :: _) =>
        let full_address := if clean_special_chars
          then clean_address_text c.formatted aggressive else c.formatted
        let comps := cleanComponents clean_special_chars aggressive c.components
        .inl { base with
                completed_address := full_address,
                method_used := "forward_geocoding",
                confidence := min ((c.confidence.getD 5) / 10) (8 / 10),
                components := comps,
                coordinates := some c.geometry }
    else .inl base
  match afterGeocode with
  | .inr msg => { base with error := some msg, method_used := "error" }
  | .inl r =>
    { r with suggestions := suggest_address_corrections partial_address 3 }

/-- Embeds `complete_address(partial_address, coordinates, language,
clean_special_chars, aggressive)` (lines 236-332). -/
def complete_address (p : Provider) (partial_address : String)
    (coordinates : Option (Rat × Rat)) (language : String)
    (clean_special_chars aggressive : Bool) : CompletionResult :=
  let base : CompletionResult :=
    { original_address := partial_address,
      completed_address := partial_address,
      method_used := "none",
      confidence := 0,
      components := [],
      suggestions := [] }
  match coordinates with
  | some (lat, lng) =>
    match p.reverse lat lng (some language) clean_special_chars with
    | .raises msg => { base with error := some msg, method_used := "error" }
    | .ok [] => completeForward p partial_address language clean_special_chars aggressive base
    | .ok (c :: _) =>
      let full_address := if clean_special_chars
        then clean_address_text c.formatted aggressive else c.formatted
      let comps := cleanComponents clean_special_chars aggressive c.components
      let merged := merge_address_data partial_address full_address comps
      { base with
          completed_address := merged,
          method_used := "reverse_geocoding",
          confidence := 9 / 10,
          components := comps }
  | none => completeForward p partial_address language clean_special_chars aggressive base

/-- Result of `validate_postal_code` (lines 462-518): `is_valid` always
present, the other keys optional.  Pattern source strings are carried verbatim
(braces written as escapes). -/
structure PostalResult where
  is_valid : Bool
  reason : Option String := none
  country_code : Option String := none
  pattern_used : Option String := none
  possible_country : Option String := none
  pattern_matched : Option String := none
  cleaned_postal_code : Option String := none
deriving DecidableEq, Repr

/-- Embeds `^\d{n}$` as a full match. -/
def digitsExact (n : Nat) (l : List Char) : Bool := takeDigits n l = some []

/-- Embeds `^\d{5}(-\d{4})?$`. -/
def usPostal (l : List Char) : Bool :=
  match takeDigits 5 l with
  | none => false
  | some [] => true
  | some ('-' :: r) => takeDigits 4 r = some []
  | some _ => false

/-- Embeds `\d[A-Z]\d$`. -/
def caPostalTail : List Char → Bool
  | [d2, e, d3] => d2.isDigit && e.isUpper && d3.isDigit
  | _ => false

/-- Embeds `^[A-Z]\d[A-Z]\s?\d[A-Z]\d$`. -/
def caPostal (l : List Char) : Bool :=
  match l with
  | a :: d1 :: b :: rest =>
    a.isUpper && d1.isDigit && b.isUpper &&
      ((match rest with
        | w :: r2 => isWsC w && caPostalTail r2
        | [] => false) || caPostalTail rest)
  | _ => false

/-- Embeds `\d[A-Z]{2}$` (GB tail). -/
def gbEnd : List Char → Bool
  | [d, e, f] => d.isDigit && e.isUpper && f.isUpper
  | _ => false

/-- Embeds `\s?\d[A-Z]{2}$`. -/
def gbWsEnd (l : List Char) : Bool :=
  (match l with
   | w :: r => isWsC w && gbEnd r
   | [] => false) || gbEnd l

/-- Embeds `[A-Z\d]?\s?\d[A-Z]{2}$`. -/
def gbOpt (l : List Char) : Bool :=
  (match l with
   | x :: r => (x.isUpper || x.isDigit) && gbWsEnd r
   | [] => false) || gbWsEnd l

/-- Embeds `\d[A-Z\d]?\s?\d[A-Z]{2}$` (after the leading letters). -/
def gbMid : List Char → Bool
  | d :: r => d.isDigit && gbOpt r
  | [] => false

/-- Embeds `^[A-Z]{1,2}\d[A-Z\d]?\s?\d[A-Z]{2}$`. -/
def gbPostal (l : List Char) : Bool :=
  match l with
  | a :: rest =>
    a.isUpper &&
      ((match rest with
        | b :: r2 => b.isUpper && gbMid r2
        | [] => false) || gbMid rest)
  | [] => false

/-- Embeds `^\d{5}-?\d{3}$` (BR). -/
def brPostal (l : List Char) : Bool :=
  match takeDigits 5 l with
  | none => false
  | some ('-' :: r) => takeDigits 3 r = some [] || takeDigits 3 ('-' :: r) = some []
  | some r => takeDigits 3 r = some []

/-- Embeds `\d{4}[A-Z]{3}$`. -/
def arTail (l : List Char) : Bool :=
  match takeDigits 4 l with
  | some [u, v, w] => u.isUpper && v.isUpper && w.isUpper
  | _ => false

/-- Embeds `^[A-Z]?\d{4}[A-Z]{3}$|^\d{4}$` (AR). -/
def arPostal (l : List Char) : Bool :=
  ((match l with
    | a :: r => a.isUpper && arTail r
    | [] => false) || arTail l) || digitsExact 4 l

/-- Embeds `postal_patterns` (lines 477-489) in dictionary insertion order: country
code, the regex source text, and its compiled full-match test. -/
def postal_patterns : List (String × String × (List Char → Bool)) :=
  [("ES", "^\\d\x7b5\x7d$", digitsExact 5),
   ("US", "^\\d\x7b5\x7d(-\\d\x7b4\x7d)?$", usPostal),
   ("CA", "^[A-Z]\\d[A-Z]\\s?\\d[A-Z]\\d$", caPostal),
   ("MX", "^\\d\x7b5\x7d$", digitsExact 5),
   ("GB", "^[A-Z]\x7b1,2\x7d\\d[A-Z\\d]?\\s?\\d[A-Z]\x7b2\x7d$", gbPostal),
   ("FR", "^\\d\x7b5\x7d$", digitsExact 5),
   ("DE", "^\\d\x7b5\x7d$", digitsExact 5),
   ("IT", "^\\d\x7b5\x7d$", digitsExact 5),
   ("BR", "^\\d\x7b5\x7d-?\\d\x7b3\x7d$", brPostal),
   ("AR", "^[A-Z]?\\d\x7b4\x7d[A-Z]\x7b3\x7d$|^\\d\x7b4\x7d$", arPostal),
   ("CO", "^\\d\x7b6\x7d$", digitsExact 6)]

/-- Python `str.upper()` on the ASCII range. -/
def upperL (l : List Char) : List Char := l.map Char.toUpper

/-- The country-less scan of `validate_postal_code` (lines 504-518): first
matching pattern wins. -/
def validateScan (cleaned : String) : PostalResult :=
  match postal_patterns.find? (fun e => e.2.2 cleaned.data) with
  | some entry =>
    { is_valid := true,
      possible_country := some entry.1,
      pattern_matched := some entry.2.1,
      cleaned_postal_code := some cleaned }
  | none =>
    { is_valid := false,
      reason := some "no_pattern_match",
      cleaned_postal_code := some cleaned }

/-- Embeds `validate_postal_code(postal_code, country_code)` (lines 462-518). -/
def validate_postal_code (postal_code : String) (country_code : Option String) : PostalResult :=
  if postal_code = "" then
    { is_valid := false, reason := some "empty_postal_code" }
  else
    let cleaned := String.mk (upperL (stripWs postal_code.data))
    match country_code with
    | some cc =>
      let ccUp := String.mk (upperL cc.data)
      match postal_patterns.find? (fun e => e.1 = ccUp) with
      | some entry =>
        { is_valid := entry.2.2 cleaned.data,
          country_code := some ccUp,
          pattern_used := some entry.2.1,
          cleaned_postal_code := some cleaned }
      | none => validateScan cleaned
    | none => validateScan cleaned

deriving instance DecidableEq for Except

/-- The `timezone` block attached by `enrich_location_data` (lines 403-408). -/
structure TZBlock where
  name : String
  offset_sec : Int
  offset_string : String
deriving DecidableEq, Repr

/-- The `administrative_levels` block (lines 411-423). -/
structure AdminLevels where
  country : String
  country_code : String
  state : String
  state_code : String
  province : String
  county : String
  city : String
  town : String
  village : String
  suburb : String
  neighbourhood : String
deriving DecidableEq, Repr

/-- The `geographic_info` block (lines 426-434); dict-valued annotation
payloads stay opaque optional strings. -/
structure GeoInfo where
  postcode : String
  continent : String
  currency : Option String
  calling_code : String
  flag : String
  geohash : String
  what3words : Option String
deriving DecidableEq, Repr

/-- The `quality_info` block (lines 437-443). -/
structure QualityInfo where
  mgrs : String
  maidenhead : String
  mercator : Option String
  osm : Option String
  un_m49 : Option String
deriving DecidableEq, Repr

/-- The `coordinate_systems` block (lines 446-451), attached only when a DMS
annotation is present. -/
structure CoordSystems where
  dms : String
  mgrs : String
  maidenhead : String
deriving DecidableEq, Repr

/-- The `quality_metrics` block (lines 583-588); the wall-clock timestamp is
modelled as a presence marker. -/
structure QualityMetrics where
  completeness_score : Rat
  has_coordinates : Bool
  method_used : String
  processing_timestamp : Unit
deriving DecidableEq, Repr

/-- One `addr_data` dictionary flowing through `process_address_batch` /
`enrich_location_data`.  Input keys: `address`, `lat`, `lng` (a `lat`/`lng`
value is `Except.error msg` when `float(...)` would raise `msg`).  Every other
field is a key added by the pipeline; `none` is an absent key.  The
`enrichment_timestamp` wall-clock string is modelled as a presence marker. -/
structure AddressRecord where
  address : Option String := none
  lat : Option (Except String Rat) := none
  lng : Option (Except String Rat) := none
  original_address : Option String := none
  completed_address : Option String := none
  normalized_address : Option String := none
  method_used : Option String := none
  confidence : Option Rat := none
  components : Option (List (String × String)) := none
  suggestions : Option (List String) := none
  coordinates : Option (Rat × Rat) := none
  error : Option String := none
  postal_validation : Option PostalResult := none
  timezone : Option TZBlock := none
  administrative_levels : Option AdminLevels := none
  geographic_info : Option GeoInfo := none
  quality_info : Option QualityInfo := none
  coordinate_systems : Option CoordSystems := none
  enrichment_timestamp : Option Unit := none
  enrichment_version : Option String := none
  enrichment_error : Option String := none
  quality_metrics : Option QualityMetrics := none
  processing_error : Option String := none
deriving DecidableEq, Repr

/-- Attach the per-candidate enrichment blocks (lines 393-451). -/
def addEnrichment (r : AddressRecord) (c : Candidate)
    (clean_special_chars aggressive : Bool) : AddressRecord :=
  let comps := cleanComponents clean_special_chars aggressive c.components
  let ann := c.annotations
  let tz := ann.timezone.getD { }
  let compD := fun k => ((comps.lookup k).getD "")
  { r with
    timezone := some
      { name := tz.name.getD "",
        offset_sec := tz.offset_sec.getD 0,
        offset_string := tz.offset_string.getD "" },
    administrative_levels := some
      { country := compD "country", country_code := compD "country_code",
        state := compD "state", state_code := compD "state_code",
        province := compD "province", county := compD "county",
        city := compD "city", town := compD "town", village := compD "village",
        suburb := compD "suburb", neighbourhood := compD "neighbourhood" },
    geographic_info := some
      { postcode := compD "postcode", continent := ann.continent.getD "",
        currency := ann.currency, calling_code := ann.callingcode.getD "",
        flag := ann.flag.getD "", geohash := ann.geohash.getD "",
        what3words := ann.what3words },
    quality_info := some
      { mgrs := ann.MGRS.getD "", maidenhead := ann.Maidenhead.getD "",
        mercator := ann.Mercator, osm := ann.OSM, un_m49 := ann.UN_M49 },
    coordinate_systems :=
      match ann.DMS with
      | some dms => some
          { dms := dms, mgrs := ann.MGRS.getD "", maidenhead := ann.Maidenhead.getD "" }
      | none => r.coordinate_systems }

/-- Embeds `enrich_location_data(address_data, coordinates, clean_special_chars,
aggressive)` (lines 357-460).  Stage 1 resolves a coordinate pair (explicit
argument, else a forward lookup on the `address` key); stage 2 issues the
reverse lookup when both resolved coordinates are truthy (`None` and `0.0` are
falsy).  A raise inside the `try` keeps the mutations made so far, attaches
`enrichment_error`, and skips the timestamp/version stamping. -/
def enrich_location_data (p : Provider) (address_data : AddressRecord)
    (coordinates : Option (Rat × Rat)) (clean_special_chars aggressive : Bool) :
    AddressRecord :=
  let stage1 : (Option Rat × Option Rat × AddressRecord) ⊕ (AddressRecord × String) :=
    match coordinates with
    | some (a, b) => .inl (some a, some b, address_data)
    | none =>
      match address_data.address with
      | some addr =>
        if addr ≠ "" then
          match p.forward addr none with
          | .raises msg => .inr (address_data, msg)
          | .ok [] => .inl (none, none, address_data)
          | .ok (c :: _) =>
            .inl (some c.geometry.1, some c.geometry.2,
                  { address_data with coordinates := some c.geometry })
        else .inl (none, none, address_data)
      | none => .inl (none, none, address_data)
  match stage1 with
  | .inr (r, msg) => { r with enrichment_error := some msg }
  | .inl (latO, lngO, r1) =>
    let stage2 : AddressRecord ⊕ (AddressRecord × String) :=
      match latO, lngO with
      | some lat, some lng =>
        if lat ≠ 0 ∧ lng ≠ 0 then
          match p.reverse lat lng none clean_special_chars with
          | .raises msg => .inr (r1, msg)
          | .ok [] => .inl r1
          | .ok (c :: _) => .inl (addEnrichment r1 c clean_special_chars aggressive)
        else .inl r1
      | _, _ => .inl r1
    match stage2 with
    | .inr (r, msg) => { r with enrichment_error := some msg }
    | .inl r2 =>
      { r2 with enrichment_timestamp := some (), enrichment_version := some "1.0" }

/-- Embeds `float(addr_data['lat'])`, `float(addr_data['lng'])` (lines 544-546): both
keys must be present for a conversion to be attempted; a failed conversion
raises, left to right. -/
def parseCoords (r : AddressRecord) : Except String (Option (Rat × Rat)) :=
  match r.lat, r.lng with
  | some v1, some v2 =>
    match v1 with
    | .error msg => .error msg
    | .ok a =>
      match v2 with
      | .error msg => .error msg
      | .ok b => .ok (some (a, b))
  | _, _ => .ok none

/-- Embeds `addr_data.update(completion_result)` (line 556): the always-present
completion keys overwrite; the optional keys overwrite only when present. -/
def applyCompletion (r : AddressRecord) (c : CompletionResult) : AddressRecord :=
  { r with
    original_address := some c.original_address,
    completed_address := some c.completed_address,
    method_used := some c.method_used,
    confidence := some c.confidence,
    components := some c.components,
    suggestions := some c.suggestions,
    coordinates := match c.coordinates with | some g => some g | none => r.coordinates,
    error := match c.error with | some e => some e | none => r.error }

/-- Step 3 of `process_address_batch` (lines 558-562): normalize the completed
address when present and truthy. -/
def normalizeStep (language : String) (r1 : AddressRecord) : AddressRecord :=
  match r1.completed_address with
  | some s =>
    if s ≠ "" then
      { r1 with normalized_address := some (normalize_address_format s language) }
    else r1
  | none => r1

/-- Step 4 of `process_address_batch` (lines 564-570): validate the postal code
component when present. -/
def postalStep (r2 : AddressRecord) : AddressRecord :=
  match r2.components with
  | some comps =>
    match comps.lookup "postcode" with
    | some pc =>
      let pv := validate_postal_code pc (comps.lookup "country_code")
      { r2 with postal_validation := some pv }
    | none => r2
  | none => r2

/-- Step 7 of `process_address_batch` (lines 582-588): attach quality metrics. -/
def qualityStep (completeness : CompletenessReport) (final_coords : Option (Rat × Rat))
    (r4 : AddressRecord) : AddressRecord :=
  let qm : QualityMetrics :=
    { completeness_score := completeness.confidence,
      has_coordinates := final_coords.isSome,
      method_used := r4.method_used.getD "none",
      processing_timestamp := () }
  { r4 with quality_metrics := some qm }

/-- The per-record body of `process_address_batch` (lines 538-599): steps 1-7
inside the record-level `try`, whose only raise site in this model is the
`float` conversion (every provider failure is already caught inside
`complete_address` / `enrich_location_data`). -/
def processOne (p : Provider) (language : String) (clean_special_chars aggressive : Bool)
    (addr_data : AddressRecord) : AddressRecord :=
  match parseCoords addr_data with
  | .error msg => { addr_data with processing_error := some msg }
  | .ok coordinates =>
    let address := addr_data.address.getD ""
    let completeness := detect_incomplete_address address
    let r1 :=
      if completeness.is_complete = false ∨ completeness.confidence < 7 / 10 then
        applyCompletion addr_data
          (complete_address p address coordinates language clean_special_chars aggressive)
      else addr_data
    let r3 := postalStep (normalizeStep language r1)
    let final_coords := match coordinates with | some g => some g | none => r3.coordinates
    qualityStep completeness final_coords
      (enrich_location_data p r3 final_coords clean_special_chars aggressive)

/-- Embeds `process_address_batch(addresses, delay, language, clean_special_chars,
aggressive)` (lines 520-601).  Progress printing and the inter-record
`time.sleep(delay)` pacing have no effect on the returned data; `delay` is
kept as a parameter for interface fidelity. -/
def process_address_batch (p : Provider) (addresses : List AddressRecord) (delay : Rat)
    (language : String) (clean_special_chars aggressive : Bool) : List AddressRecord :=
  let _ := delay
  addresses.map (processOne p language clean_special_chars aggressive)

/-- Invariant used for idempotence: no two adjacent whitespace characters. -/
def NoAdjWs (l : List Char) : Prop :=
  l.Chain' (fun a b => ¬(isWsC a = true ∧ isWsC b = true))


/-! ### Concrete providers, candidates and records for scenario theorems -/

/-- A generic provider candidate (its formatted address contains a digit). -/
def cand0 : Candidate := { formatted := "x 1", geometry := (40, -3) }

/-- Provider whose reverse lookup succeeds with `cand0` and whose forward
lookup raises. -/
def provRevOk : Provider :=
  { forward := fun _ _ => .raises "late", reverse := fun _ _ _ _ => .ok [cand0] }

/-- Provider that raises on every reverse lookup. -/
def provRevBoom : Provider :=
  { forward := fun _ _ => .ok [cand0], reverse := fun _ _ _ _ => .raises "boom" }

/-- Provider that raises on every forward lookup. -/
def provFwdBoom : Provider :=
  { forward := fun _ _ => .raises "boom", reverse := fun _ _ _ _ => .ok [cand0] }

/-- Provider raising exactly on forward lookups for the query "a1": the batch
scenario in which one record provider call raises and every other succeeds. -/
def provSel : Provider :=
  { forward := fun q _ => if q = "a1" then .raises "boom" else .ok [cand0],
    reverse := fun _ _ _ _ => .ok [cand0] }

/-- Batch input record whose provider call raises under `provSel`. -/
def recA : AddressRecord := { address := some "a1" }

/-- Batch input record processed without failure under `provSel`. -/
def recB : AddressRecord := { address := some "b2" }

/-! ### Lemmas about the whitespace pipeline of `clean_address_text` -/

theorem squeezeWs_cons_ws_false {d : Char} {ds : List Char} (hd : isWsC d = true) :
    squeezeWs false (d :: ds) = ' ' :: squeezeWs true ds := by
  simp [squeezeWs, hd]

theorem squeezeWs_cons_ws_true {d : Char} {ds : List Char} (hd : isWsC d = true) :
    squeezeWs true (d :: ds) = squeezeWs true ds := by
  simp [squeezeWs, hd]

theorem squeezeWs_cons_not_ws {d : Char} {ds : List Char} (b : Bool) (hd : isWsC d = false) :
    squeezeWs b (d :: ds) = d :: squeezeWs false ds := by
  cases b <;> simp [squeezeWs, hd]

theorem mem_squeezeWs {c : Char} :
    ∀ (b : Bool) (l : List Char), c ∈ squeezeWs b l → c = ' ' ∨ c ∈ l := by
  intro b l
  induction l generalizing b with
  | nil => simp [squeezeWs]
  | cons d ds ih =>
    intro h
    by_cases hd : isWsC d = true
    · cases b with
      | true =>
        rw [squeezeWs_cons_ws_true hd] at h
        rcases ih true h with h1 | h1
        · exact Or.inl h1
        · exact Or.inr (List.mem_cons_of_mem _ h1)
      | false =>
        rw [squeezeWs_cons_ws_false hd] at h
        rcases List.mem_cons.mp h with h1 | h1
        · exact Or.inl h1
        · rcases ih true h1 with h2 | h2
          · exact Or.inl h2
          · exact Or.inr (List.mem_cons_of_mem _ h2)
    · rw [squeezeWs_cons_not_ws b (by simpa using hd)] at h
      rcases List.mem_cons.mp h with h1 | h1
      · exact Or.inr (h1 ▸ List.mem_cons_self _ _)
      · rcases ih false h1 with h2 | h2
        · exact Or.inl h2
        · exact Or.inr (List.mem_cons_of_mem _ h2)

theorem squeezeWs_ws_space {c : Char} :
    ∀ (b : Bool) (l : List Char), c ∈ squeezeWs b l → isWsC c = true → c = ' ' := by
  intro b l
  induction l generalizing b with
  | nil => simp [squeezeWs]
  | cons d ds ih =>
    intro h hc
    by_cases hd : isWsC d = true
    · cases b with
      | true =>
        rw [squeezeWs_cons_ws_true hd] at h
        exact ih true h hc
      | false =>
        rw [squeezeWs_cons_ws_false hd] at h
        rcases List.mem_cons.mp h with h1 | h1
        · exact h1
        · exact ih true h1 hc
    · rw [squeezeWs_cons_not_ws b (by simpa using hd)] at h
      rcases List.mem_cons.mp h with h1 | h1
      · subst h1; exact absurd hc (by simpa using hd)
      · exact ih false h1 hc

theorem squeezeWs_true_head :
    ∀ l : List Char, squeezeWs true l = [] ∨
      ∃ d ds, squeezeWs true l = d :: ds ∧ isWsC d = false := by
  intro l
  induction l with
  | nil => exact Or.inl rfl
  | cons d ds ih =>
    by_cases hd : isWsC d = true
    · rw [squeezeWs_cons_ws_true hd]
      exact ih
    · rw [squeezeWs_cons_not_ws true (by simpa using hd)]
      exact Or.inr ⟨d, squeezeWs false ds, rfl, by simpa using hd⟩

theorem noAdjWs_squeezeWs : ∀ (b : Bool) (l : List Char), NoAdjWs (squeezeWs b l) := by
  intro b l
  induction l generalizing b with
  | nil => simp [squeezeWs, NoAdjWs]
  | cons d ds ih =>
    by_cases hd : isWsC d = true
    · cases b with
      | true =>
        rw [NoAdjWs, squeezeWs_cons_ws_true hd]
        exact ih true
      | false =>
        rw [NoAdjWs, squeezeWs_cons_ws_false hd, List.chain'_cons']
        refine ⟨?_, ih true⟩
        intro y hy
        rcases squeezeWs_true_head ds with h0 | ⟨e, es, he, hws⟩
        · rw [h0] at hy; cases hy
        · rw [he] at hy
          simp only [List.head?_cons, Option.mem_def, Option.some.injEq] at hy
          subst hy
          intro hcontra
          rw [hws] at hcontra
          exact Bool.false_ne_true hcontra.2
    · rw [NoAdjWs, squeezeWs_cons_not_ws b (by simpa using hd), List.chain'_cons']
      refine ⟨?_, ih false⟩
      intro y _ hcontra
      exact hd hcontra.1

theorem squeezeWs_eq_self :
    ∀ l : List Char, (∀ c ∈ l, isWsC c = true → c = ' ') → NoAdjWs l →
      squeezeWs false l = l ∧
      (∀ d ds, l = d :: ds → isWsC d = false → squeezeWs true l = l) := by
  intro l
  induction l with
  | nil => exact fun _ _ => ⟨rfl, fun d ds h => by cases h⟩
  | cons d ds ih =>
    intro hsp hchain
    have hct := (List.chain'_cons'.mp hchain)
    have ihds := ih (fun c hc hw => hsp c (List.mem_cons_of_mem _ hc) hw) hct.2
    constructor
    · by_cases hd : isWsC d = true
      · have hdsp : d = ' ' := hsp d (List.mem_cons_self _ _) hd
        rw [squeezeWs_cons_ws_false hd]
        have htail : squeezeWs true ds = ds := by
          cases ds with
          | nil => rfl
          | cons e es =>
            have hre : isWsC e = false := by
              have hh := hct.1 e (by simp)
              by_contra hcon
              simp only [Bool.not_eq_false] at hcon
              exact hh ⟨hd, hcon⟩
            exact ihds.2 e es rfl hre
        rw [htail, hdsp]
      · rw [squeezeWs_cons_not_ws false (by simpa using hd), ihds.1]
    · intro d' ds' heq hd'
      cases heq
      rw [squeezeWs_cons_not_ws true hd', ihds.1]

theorem dropWhile_head_false {p : Char → Bool} :
    ∀ (l : List Char) (c : Char) (cs : List Char), l.dropWhile p = c :: cs → p c = false := by
  intro l
  induction l with
  | nil => intro c cs h; simp [List.dropWhile] at h
  | cons d ds ih =>
    intro c cs h
    by_cases hd : p d = true
    · rw [List.dropWhile_cons_of_pos hd] at h
      exact ih c cs h
    · rw [List.dropWhile_cons_of_neg hd] at h
      have hdc : d = c := by injection h
      subst hdc
      simpa using hd

theorem dropWhile_eq_self_of_head {p : Char → Bool} :
    ∀ l : List Char, (∀ c cs, l = c :: cs → p c = false) → l.dropWhile p = l := by
  intro l hl
  cases l with
  | nil => rfl
  | cons c cs =>
    exact List.dropWhile_cons_of_neg (by simp [hl c cs rfl])

theorem noAdjWs_dropWhile {p : Char → Bool} :
    ∀ l : List Char, NoAdjWs l → NoAdjWs (l.dropWhile p) := by
  intro l hl
  induction l with
  | nil => exact hl
  | cons d ds ih =>
    by_cases hd : p d = true
    · rw [List.dropWhile_cons_of_pos hd]
      exact ih hl.tail
    · rwa [List.dropWhile_cons_of_neg (by simp [hd])]

theorem noAdjWs_reverse : ∀ l : List Char, NoAdjWs l → NoAdjWs l.reverse := by
  intro l hl
  rw [NoAdjWs, List.chain'_reverse]
  exact hl.imp (fun a b hab h => hab ⟨h.2, h.1⟩)

theorem mem_stripEnd {c : Char} : ∀ l : List Char, c ∈ stripEnd l → c ∈ l := by
  intro l hc
  rw [stripEnd, List.mem_reverse] at hc
  exact List.mem_reverse.mp ((List.dropWhile_sublist _).mem hc)

theorem mem_stripWs {c : Char} : ∀ l : List Char, c ∈ stripWs l → c ∈ l := by
  intro l hc
  exact (List.dropWhile_sublist _).mem (mem_stripEnd _ hc)

theorem noAdjWs_stripEnd : ∀ l : List Char, NoAdjWs l → NoAdjWs (stripEnd l) := by
  intro l hl
  exact noAdjWs_reverse _ (noAdjWs_dropWhile _ (noAdjWs_reverse _ hl))

theorem noAdjWs_stripWs : ∀ l : List Char, NoAdjWs l → NoAdjWs (stripWs l) := by
  intro l hl
  exact noAdjWs_stripEnd _ (noAdjWs_dropWhile _ hl)

theorem stripEnd_cons_not_ws {c : Char} (hc : isWsC c = false) (cs : List Char) :
    stripEnd (c :: cs) = c :: stripEnd cs := by
  rw [stripEnd, stripEnd, List.reverse_cons, List.dropWhile_append]
  rcases h : cs.reverse.dropWhile isWsC with _ | ⟨d, t⟩
  · simp [h, hc]
  · simp [h]

theorem stripEnd_getLast_false :
    ∀ (l : List Char) (c : Char), (stripEnd l).getLast? = some c → isWsC c = false := by
  intro l c hc
  rw [stripEnd, List.getLast?_reverse] at hc
  rcases h : l.reverse.dropWhile isWsC with _ | ⟨d, t⟩
  · rw [h] at hc; cases hc
  · rw [h] at hc
    simp only [List.head?_cons, Option.some.injEq] at hc
    subst hc
    exact dropWhile_head_false _ _ _ h

theorem stripEnd_eq_self :
    ∀ l : List Char, (∀ c, l.getLast? = some c → isWsC c = false) → stripEnd l = l := by
  intro l hl
  rw [stripEnd]
  rw [dropWhile_eq_self_of_head]
  · exact List.reverse_reverse l
  · intro c cs hcs
    apply hl
    rw [← List.head?_reverse, hcs]
    rfl

theorem stripWs_head_not_ws :
    ∀ (m : List Char) (c : Char) (cs : List Char), stripWs m = c :: cs → isWsC c = false := by
  intro m c cs h
  rw [stripWs] at h
  rcases hA : m.dropWhile isWsC with _ | ⟨d, t⟩
  · rw [hA] at h
    exact absurd h (by simp [stripEnd])
  · rw [hA, stripEnd_cons_not_ws (dropWhile_head_false _ _ _ hA) t] at h
    have hdc : d = c := by injection h
    subst hdc
    exact dropWhile_head_false _ _ _ hA

theorem stripWs_getLast_not_ws :
    ∀ (m : List Char) (c : Char), (stripWs m).getLast? = some c → isWsC c = false := by
  intro m c h
  rw [stripWs] at h
  exact stripEnd_getLast_false _ _ h

theorem stripWs_eq_self (m : List Char)
    (hhead : ∀ c cs, m = c :: cs → isWsC c = false)
    (hlast : ∀ c, m.getLast? = some c → isWsC c = false) : stripWs m = m := by
  rw [stripWs, dropWhile_eq_self_of_head m hhead]
  exact stripEnd_eq_self m hlast

/-! ### Lemmas about accent folding -/

theorem foldAccents_cons (d : Char) (ds : List Char) :
    foldAccents (d :: ds) = foldAccent d ++ foldAccents ds := by
  simp [foldAccents]

theorem mem_foldAccents {c : Char} :
    ∀ l : List Char, c ∈ foldAccents l → ∃ d ∈ l, c ∈ foldAccent d := by
  intro l
  induction l with
  | nil => simp [foldAccents]
  | cons d ds ih =>
    intro h
    rw [foldAccents_cons] at h
    rcases List.mem_append.mp h with h1 | h1
    · exact ⟨d, List.mem_cons_self _ _, h1⟩
    · rcases ih h1 with ⟨e, he, hce⟩
      exact ⟨e, List.mem_cons_of_mem _ he, hce⟩

theorem foldAccents_eq_self :
    ∀ l : List Char, (∀ c ∈ l, foldAccent c = [c]) → foldAccents l = l := by
  intro l
  induction l with
  | nil => intro _; rfl
  | cons d ds ih =>
    intro h
    rw [foldAccents_cons, h d (List.mem_cons_self _ _),
      ih (fun c hc => h c (List.mem_cons_of_mem _ hc))]
    rfl

theorem foldAccent_eq_self_of_not_key {d : Char} (hd : d ∉ accentKeys) :
    foldAccent d = [d] := by
  simp only [accentKeys, List.mem_cons, List.not_mem_nil, or_false, not_or] at hd
  simp [foldAccent, hd]

theorem foldAccent_key_closed :
    ∀ d ∈ accentKeys, ∀ c ∈ foldAccent d, foldAccent c = [c] ∧ isSymC c = false ∧
      isWsC c = false := by decide

theorem foldAccent_closed {d c : Char} (hc : c ∈ foldAccent d) : foldAccent c = [c] := by
  by_cases hd : d ∈ accentKeys
  · exact (foldAccent_key_closed d hd c hc).1
  · rw [foldAccent_eq_self_of_not_key hd] at hc
    simp only [List.mem_singleton] at hc
    subst hc
    exact foldAccent_eq_self_of_not_key hd

theorem foldAccent_not_sym {d c : Char} (hd : isSymC d = false) (hc : c ∈ foldAccent d) :
    isSymC c = false := by
  by_cases hk : d ∈ accentKeys
  · exact (foldAccent_key_closed d hk c hc).2.1
  · rw [foldAccent_eq_self_of_not_key hk] at hc
    simp only [List.mem_singleton] at hc
    subst hc
    exact hd

/-! ### Invariants of the output of `cleanL`, and idempotence -/

theorem cleanL_mem_cases {a : Bool} {l : List Char} {c : Char} (hc : c ∈ cleanL a l) :
    c = ' ' ∨ c ∈ (if a then foldAccents (removeSyms l) else removeSyms l) := by
  simp only [cleanL] at hc
  exact mem_squeezeWs false _ (mem_stripWs _ hc)

theorem cleanL_no_sym (a : Bool) (l : List Char) : ∀ c ∈ cleanL a l, isSymC c = false := by
  intro c hc
  rcases cleanL_mem_cases hc with h | h
  · subst h; decide
  · cases a with
    | false =>
      simp only [Bool.false_eq_true, if_false] at h
      have := List.of_mem_filter h
      simpa using this
    | true =>
      simp only [if_true] at h
      rcases mem_foldAccents _ h with ⟨d, hd, hcd⟩
      have hds : isSymC d = false := by simpa using List.of_mem_filter hd
      exact foldAccent_not_sym hds hcd

theorem cleanL_fold_fixed (l : List Char) : ∀ c ∈ cleanL true l, foldAccent c = [c] := by
  intro c hc
  rcases cleanL_mem_cases hc with h | h
  · subst h; decide
  · simp only [if_true] at h
    rcases mem_foldAccents _ h with ⟨d, _, hcd⟩
    exact foldAccent_closed hcd

theorem cleanL_ws_space (a : Bool) (l : List Char) :
    ∀ c ∈ cleanL a l, isWsC c = true → c = ' ' := by
  intro c hc hw
  simp only [cleanL] at hc
  exact squeezeWs_ws_space false _ (mem_stripWs _ hc) hw

theorem cleanL_noAdj (a : Bool) (l : List Char) : NoAdjWs (cleanL a l) := by
  simp only [cleanL]
  exact noAdjWs_stripWs _ (noAdjWs_squeezeWs false _)

theorem cleanL_idem (a : Bool) (l : List Char) : cleanL a (cleanL a l) = cleanL a l := by
  have hsym : removeSyms (cleanL a l) = cleanL a l :=
    List.filter_eq_self.mpr (fun c hc => by simp [cleanL_no_sym a l c hc])
  have hfold : (if a then foldAccents (removeSyms (cleanL a l)) else removeSyms (cleanL a l))
      = cleanL a l := by
    cases a with
    | false => simpa using hsym
    | true =>
      simp only [if_true]
      rw [hsym]
      exact foldAccents_eq_self _ (cleanL_fold_fixed l)
  have hsq : squeezeWs false (cleanL a l) = cleanL a l :=
    (squeezeWs_eq_self _ (cleanL_ws_space a l) (cleanL_noAdj a l)).1
  have hstrip : stripWs (cleanL a l) = cleanL a l := by
    refine stripWs_eq_self _ ?_ ?_
    · intro c cs h
      exact stripWs_head_not_ws _ c cs h
    · intro c h
      exact stripWs_getLast_not_ws _ c h
  calc cleanL a (cleanL a l)
      = stripWs (squeezeWs false
          (if a then foldAccents (removeSyms (cleanL a l)) else removeSyms (cleanL a l))) := rfl
    _ = cleanL a l := by rw [hfold, hsq, hstrip]

/-- C7: `clean_address_text` is idempotent: for every string `x` and both values
of the `aggressive` flag, cleaning twice equals cleaning once. -/
theorem C7_clean_address_text_idempotent (x : String) (a : Bool) :
    clean_address_text (clean_address_text x a) a = clean_address_text x a := by
  by_cases hx : x = ""
  · simp [clean_address_text, hx]
  · simp only [clean_address_text, if_neg hx]
    by_cases h2 : String.mk (cleanL a x.data) = ""
    · rw [if_pos h2]
    · rw [if_neg h2]
      show String.mk (cleanL a (cleanL a x.data)) = String.mk (cleanL a x.data)
      rw [cleanL_idem]

/-! ### Character-class lemmas -/

theorem char_toNat_ofNat {m : Nat} (hv : m.isValidChar) : (Char.ofNat m).toNat = m := by
  rw [Char.ofNat, dif_pos hv]
  simp [Char.ofNatAux, Char.toNat, UInt32.toNat]

theorem isDigit_toNat {c : Char} (h : c.isDigit = true) : 48 ≤ c.toNat ∧ c.toNat ≤ 57 := by
  simp only [Char.isDigit, Bool.and_eq_true, decide_eq_true_eq] at h
  constructor
  · have h1 := h.1; simpa [UInt32.le_def] using h1
  · have h2 := h.2; simpa [UInt32.le_def] using h2

theorem toLower_eq_self_of_digit {c : Char} (h : c.isDigit = true) : c.toLower = c := by
  obtain ⟨h1, h2⟩ := isDigit_toNat h
  simp only [Char.toLower]
  rw [if_neg]
  intro hcon
  omega

theorem isDigit_toLower_false {c : Char} (h : c.isDigit = false) :
    c.toLower.isDigit = false := by
  by_cases hc : c.toNat ≥ 65 ∧ c.toNat ≤ 90
  · simp only [Char.toLower, if_pos hc]
    have hv : (c.toNat + 32).isValidChar := Or.inl (by omega)
    have hval := char_toNat_ofNat hv
    by_contra hcon
    simp only [Bool.not_eq_false] at hcon
    have hb := (isDigit_toNat hcon).2
    rw [hval] at hb
    omega
  · simp only [Char.toLower, if_neg hc]
    exact h

theorem isDigit_not_ws {c : Char} (h : c.isDigit = true) : isWsC c = false := by
  by_contra hcon
  simp only [Bool.not_eq_false] at hcon
  simp only [isWsC, Bool.or_eq_true, decide_eq_true_eq] at hcon
  rcases hcon with ((((h1 | h1) | h1) | h1) | h1) | h1 <;> subst h1 <;>
    exact absurd h (by decide)

/-! ### Word-splitting lemmas (`str.split()` used by `_merge_address_data`) -/

theorem mem_of_wsplitAux {c : Char} :
    ∀ (l cur w : List Char), w ∈ wsplitAux cur l → c ∈ w → c ∈ cur ∨ c ∈ l := by
  intro l
  induction l with
  | nil =>
    intro cur w hw hc
    by_cases hcur : cur = []
    · subst hcur; simp [wsplitAux] at hw
    · simp only [wsplitAux, if_neg hcur, List.mem_singleton] at hw
      subst hw
      exact Or.inl (List.mem_reverse.mp hc)
  | cons d ds ih =>
    intro cur w hw hc
    by_cases hd : isWsC d = true
    · by_cases hcur : cur = []
      · subst hcur
        simp only [wsplitAux, hd, if_true] at hw
        rcases ih [] w hw hc with h | h
        · simp at h
        · exact Or.inr (List.mem_cons_of_mem _ h)
      · simp only [wsplitAux, hd, if_true, if_neg hcur] at hw
        rcases List.mem_cons.mp hw with h | h
        · subst h; exact Or.inl (List.mem_reverse.mp hc)
        · rcases ih [] w h hc with h1 | h1
          · simp at h1
          · exact Or.inr (List.mem_cons_of_mem _ h1)
    · simp only [wsplitAux, hd, if_false] at hw
      rcases ih (d :: cur) w hw hc with h | h
      · rcases List.mem_cons.mp h with h1 | h1
        · exact Or.inr (h1 ▸ List.mem_cons_self _ _)
        · exact Or.inl h1
      · exact Or.inr (List.mem_cons_of_mem _ h)

theorem wsplitAux_covers {c : Char} (hcn : isWsC c = false) :
    ∀ (l cur : List Char), (c ∈ cur ∨ c ∈ l) → ∃ w ∈ wsplitAux cur l, c ∈ w := by
  intro l
  induction l with
  | nil =>
    intro cur h
    rcases h with h | h
    · have hcur : cur ≠ [] := by intro he; subst he; simp at h
      refine ⟨cur.reverse, ?_, List.mem_reverse.mpr h⟩
      simp [wsplitAux, hcur]
    · simp at h
  | cons d ds ih =>
    intro cur h
    by_cases hd : isWsC d = true
    · have hcd : c ≠ d := by
        intro he; subst he; rw [hd] at hcn; cases hcn
      by_cases hcur : cur = []
      · subst hcur
        simp only [wsplitAux, hd, if_true]
        apply ih []
        rcases h with h | h
        · simp at h
        · rcases List.mem_cons.mp h with h1 | h1
          · exact absurd h1 hcd
          · exact Or.inr h1
      · simp only [wsplitAux, hd, if_true, if_neg hcur]
        rcases h with h | h
        · exact ⟨cur.reverse, List.mem_cons_self _ _, List.mem_reverse.mpr h⟩
        · rcases List.mem_cons.mp h with h1 | h1
          · exact absurd h1 hcd
          · rcases ih [] (Or.inr h1) with ⟨w, hw, hcw⟩
            exact ⟨w, List.mem_cons_of_mem _ hw, hcw⟩
    · simp only [wsplitAux, hd, if_false]
      apply ih (d :: cur)
      rcases h with h | h
      · exact Or.inl (List.mem_cons_of_mem _ h)
      · rcases List.mem_cons.mp h with h1 | h1
        · exact Or.inl (h1 ▸ List.mem_cons_self _ _)
        · exact Or.inr h1

theorem hasDigitL_iff {l : List Char} :
    hasDigitL l = true ↔ ∃ c ∈ l, c.isDigit = true := by
  simp [hasDigitL, List.any_eq_true]

/-- When the partial address contains a digit and the formatted address does
not, the partial address necessarily has a (lowercased) word outside the
formatted address's words: the word containing the digit. -/
theorem unique_words_of_digit {pa fa : String}
    (hp : hasDigitL pa.data = true) (hf : hasDigitL fa.data = false) :
    ((wsplit (pa.data.map Char.toLower)).any
      (fun w => !(wsplit (fa.data.map Char.toLower)).contains w)) = true := by
  rcases hasDigitL_iff.mp hp with ⟨d, hd, hdd⟩
  have hdl : d ∈ pa.data.map Char.toLower := by
    have := List.mem_map_of_mem Char.toLower hd
    rwa [toLower_eq_self_of_digit hdd] at this
  rcases wsplitAux_covers (isDigit_not_ws hdd) _ [] (Or.inr hdl) with ⟨w, hw, hdw⟩
  rw [List.any_eq_true]
  refine ⟨w, hw, ?_⟩
  by_contra hcon
  have hwf : w ∈ wsplit (fa.data.map Char.toLower) := by
    simp [List.contains, List.elem_iff] at hcon
    exact hcon
  rcases mem_of_wsplitAux _ _ _ hwf hdw with h | h
  · simp at h
  · rcases List.mem_map.mp h with ⟨e, he, hde⟩
    have : e.isDigit = true := by
      by_contra hne
      simp only [Bool.not_eq_true] at hne
      have := isDigit_toLower_false hne
      rw [hde] at this
      rw [hdd] at this
      cases this
    have : hasDigitL fa.data = true := hasDigitL_iff.mpr ⟨e, he, this⟩
    rw [hf] at this
    cases this

/-- Closed form of `_merge_address_data`: the digit prefix is attached exactly
when the stripped partial address is nonempty, the partial address contains a
digit, and the formatted address contains none. -/
theorem merge_address_data_closed_form (pa fa : String) (comps : List (String × String)) :
    merge_address_data pa fa comps =
      if stripWs pa.data ≠ [] ∧ hasDigitL pa.data = true ∧ hasDigitL fa.data = false
      then String.mk (firstDigitRun pa.data) ++ " " ++ fa
      else fa := by
  simp only [merge_address_data]
  by_cases hstrip : stripWs pa.data = []
  · simp [hstrip]
  · rcases h1 : hasDigitL pa.data with _ | _
    · simp [hstrip, h1]
    · rcases h2 : hasDigitL fa.data with _ | _
      · have hu := unique_words_of_digit h1 h2
        simp only [hstrip, h1, h2]
        simp [hstrip]
        intro hall
        rcases List.any_eq_true.mp hu with ⟨w, hw, hcw⟩
        have hmem : w ∈ wsplit (fa.data.map Char.toLower) := hall w hw
        simp [List.contains, List.elem_iff, hmem] at hcw
      · simp [hstrip, h1, h2]

/-! ### Lemmas about `completeForward` and `complete_address` -/

theorem completeForward_raises (p : Provider) (pa lang : String) (cl ag : Bool)
    (base : CompletionResult) (msg : String)
    (hs : stripWs pa.data ≠ []) (hf : p.forward pa (some lang) = .raises msg) :
    completeForward p pa lang cl ag base
      = { base with error := some msg, method_used := "error" } := by
  simp [completeForward, hs, hf]

theorem completeForward_ok_suggestions (p : Provider) (pa lang : String) (cl ag : Bool)
    (base : CompletionResult)
    (h : stripWs pa.data = [] ∨ ∃ cands, p.forward pa (some lang) = .ok cands) :
    (completeForward p pa lang cl ag base).suggestions
      = suggest_address_corrections pa 3 := by
  rcases h with hs | ⟨cands, hf⟩
  · simp [completeForward, hs]
  · by_cases hs : stripWs pa.data = []
    · simp [completeForward, hs]
    · rcases cands with _ | ⟨c, cs⟩ <;> simp [completeForward, hs, hf]

theorem completeForward_original (p : Provider) (pa lang : String) (cl ag : Bool)
    (base : CompletionResult) :
    (completeForward p pa lang cl ag base).original_address = base.original_address := by
  by_cases hs : stripWs pa.data = []
  · simp [completeForward, hs]
  · rcases hf : p.forward pa (some lang) with cands | msg
    · rcases cands with _ | ⟨c, cs⟩ <;> simp [completeForward, hs, hf]
    · simp [completeForward, hs, hf]

theorem complete_address_reverse_raises (p : Provider) (pa lang : String) (cl ag : Bool)
    (lat lng : Rat) (msg : String)
    (hrev : p.reverse lat lng (some lang) cl = .raises msg) :
    complete_address p pa (some (lat, lng)) lang cl ag
      = { original_address := pa, completed_address := pa, method_used := "error",
          confidence := 0, components := [], suggestions := [], coordinates := none,
          error := some msg } := by
  simp [complete_address, hrev]

theorem complete_address_forward_raises (p : Provider) (pa : String)
    (coords : Option (Rat × Rat)) (lang : String) (cl ag : Bool) (msg : String)
    (hno : coords = none ∨ ∃ lat lng, coords = some (lat, lng) ∧
      p.reverse lat lng (some lang) cl = .ok [])
    (hs : stripWs pa.data ≠ []) (hf : p.forward pa (some lang) = .raises msg) :
    complete_address p pa coords lang cl ag
      = { original_address := pa, completed_address := pa, method_used := "error",
          confidence := 0, components := [], suggestions := [], coordinates := none,
          error := some msg } := by
  rcases hno with hco | ⟨lat, lng, hco, hrev⟩
  · subst hco
    simp only [complete_address]
    rw [completeForward_raises p pa lang cl ag _ msg hs hf]
  · subst hco
    simp only [complete_address, hrev]
    rw [completeForward_raises p pa lang cl ag _ msg hs hf]

/-- C1: `complete_address` treats provider failures as data: for every provider
behaviour it returns a result record (whose `original_address` is the given
partial address), and whenever the provider call made by the selected strategy
raises, the record carries the exception message in the `error` field and has
`method_used = "error"`. -/
theorem C1_complete_address_catches_provider_exceptions (p : Provider)
    (partial_address : String) (coordinates : Option (Rat × Rat)) (language : String)
    (cl ag : Bool) :
    (complete_address p partial_address coordinates language cl ag).original_address
        = partial_address ∧
    (∀ lat lng msg, coordinates = some (lat, lng) →
      p.reverse lat lng (some language) cl = .raises msg →
      (complete_address p partial_address coordinates language cl ag).error = some msg ∧
      (complete_address p partial_address coordinates language cl ag).method_used
        = "error") ∧
    (∀ msg, (coordinates = none ∨ ∃ lat lng, coordinates = some (lat, lng) ∧
        p.reverse lat lng (some language) cl = .ok []) →
      stripWs partial_address.data ≠ [] →
      p.forward partial_address (some language) = .raises msg →
      (complete_address p partial_address coordinates language cl ag).error = some msg ∧
      (complete_address p partial_address coordinates language cl ag).method_used
        = "error") := by
  refine ⟨?_, ?_, ?_⟩
  · rcases coordinates with _ | ⟨lat, lng⟩
    · simp only [complete_address]
      exact completeForward_original p partial_address language cl ag _
    · rcases hrev : p.reverse lat lng (some language) cl with cands | msg
      · rcases cands with _ | ⟨c, cs⟩
        · simp only [complete_address, hrev]
          exact completeForward_original p partial_address language cl ag _
        · simp [complete_address, hrev]
      · simp [complete_address, hrev]
  · intro lat lng msg hco hrev
    subst hco
    rw [complete_address_reverse_raises p partial_address language cl ag lat lng msg hrev]
    exact ⟨rfl, rfl⟩
  · intro msg hno hs hf
    rw [complete_address_forward_raises p partial_address coordinates language cl ag msg
      hno hs hf]
    exact ⟨rfl, rfl⟩

/-- C1 witness: a concrete provider whose reverse lookup raises "boom". -/
theorem C1_witness :
    (complete_address provRevBoom "x1" (some (1, 2)) "es" false false).original_address
        = "x1" ∧
    (complete_address provRevBoom "x1" (some (1, 2)) "es" false false).error = some "boom" ∧
    (complete_address provRevBoom "x1" (some (1, 2)) "es" false false).method_used
        = "error" := by
  have h := C1_complete_address_catches_provider_exceptions provRevBoom "x1"
    (some (1, 2)) "es" false false
  exact ⟨h.1, (h.2.1 1 2 "boom" rfl rfl).1, (h.2.1 1 2 "boom" rfl rfl).2⟩

/-- C2 counterexample: with coordinates supplied and a non-empty reverse
result, `complete_address` returns with the initial empty `suggestions`, while
`suggest_address_corrections` on the same partial address is nonempty — so
`suggestions` is not always populated from the partial address. -/
theorem C2_counterexample_reverse_branch :
    (complete_address provRevOk "callle mayor" (some (1, 2)) "es" false false).suggestions
        = [] ∧
    suggest_address_corrections "callle mayor" 3 = ["Calle Mayor", "Callle Mayor"] ∧
    (complete_address provRevOk "callle mayor" (some (1, 2)) "es" false false).suggestions
        ≠ suggest_address_corrections "callle mayor" 3 := by
  refine ⟨by decide, by decide, by decide⟩

/-- C2 amended: `suggestions` is populated from
`suggest_address_corrections(partial)` only on the forward-lookup path (lookup
returning a candidate list, possibly empty) and when no strategy fires; in the
successful reverse branch and on any provider exception it stays the initial
empty list. -/
theorem C2_suggestions_per_branch (p : Provider) (partial_address : String)
    (coordinates : Option (Rat × Rat)) (language : String) (cl ag : Bool) :
    (∀ lat lng c cs, coordinates = some (lat, lng) →
      p.reverse lat lng (some language) cl = .ok (c :: cs) →
      (complete_address p partial_address coordinates language cl ag).suggestions = []) ∧
    (∀ lat lng msg, coordinates = some (lat, lng) →
      p.reverse lat lng (some language) cl = .raises msg →
      (complete_address p partial_address coordinates language cl ag).suggestions = []) ∧
    ((coordinates = none ∨ ∃ lat lng, coordinates = some (lat, lng) ∧
        p.reverse lat lng (some language) cl = .ok []) →
      (stripWs partial_address.data = [] ∨
        ∃ cands, p.forward partial_address (some language) = .ok cands) →
      (complete_address p partial_address coordinates language cl ag).suggestions
        = suggest_address_corrections partial_address 3) ∧
    ((coordinates = none ∨ ∃ lat lng, coordinates = some (lat, lng) ∧
        p.reverse lat lng (some language) cl = .ok []) →
      stripWs partial_address.data ≠ [] →
      ∀ msg, p.forward partial_address (some language) = .raises msg →
      (complete_address p partial_address coordinates language cl ag).suggestions = []) := by
  refine ⟨?_, ?_, ?_, ?_⟩
  · intro lat lng c cs hco hrev
    subst hco
    simp [complete_address, hrev]
  · intro lat lng msg hco hrev
    subst hco
    rw [complete_address_reverse_raises p partial_address language cl ag lat lng msg hrev]
  · intro hno hfwd
    rcases hno with hco | ⟨lat, lng, hco, hrev⟩
    · subst hco
      simp only [complete_address]
      exact completeForward_ok_suggestions p partial_address language cl ag _ hfwd
    · subst hco
      simp only [complete_address, hrev]
      exact completeForward_ok_suggestions p partial_address language cl ag _ hfwd
  · intro hno hs msg hf
    rw [complete_address_forward_raises p partial_address coordinates language cl ag msg
      hno hs hf]

/-- C2 amended witness: forward lookup succeeding on a concrete provider. -/
theorem C2_witness :
    (complete_address provRevBoom "callle mayor" none "es" false false).suggestions
      = suggest_address_corrections "callle mayor" 3 := by
  have h := C2_suggestions_per_branch provRevBoom "callle mayor" none "es" false false
  exact h.2.2.1 (Or.inl rfl) (Or.inr ⟨[cand0], rfl⟩)

/-- C4 counterexample: the partial address "25 main" has the leading digit run
"25", absent from the formatted address "x 1"; the claim predicts "25 x 1", but
the code keeps the formatted address verbatim because the formatted address
contains a digit of its own. -/
theorem C4_counterexample_digit_elsewhere :
    (complete_address provRevOk "25 main" (some (1, 2)) "es" false false).completed_address
        = "x 1" ∧
    (complete_address provRevOk "25 main" (some (1, 2)) "es" false false).completed_address
        ≠ "25 x 1" := by
  refine ⟨by decide, by decide⟩

/-- C4 amended: in the coordinate-anchored strategy, the completed address
prefixes the first maximal digit run of the partial address (plus a space) to
the (possibly cleaned) formatted address exactly when the stripped partial
address is nonempty, the partial address contains a digit, and the formatted
address contains no digit at all; otherwise it is the formatted address
verbatim. -/
theorem C4_reverse_merge_closed_form (p : Provider) (partial_address language : String)
    (cl ag : Bool) (lat lng : Rat) (c : Candidate) (cs : List Candidate)
    (h : p.reverse lat lng (some language) cl = .ok (c :: cs)) :
    (complete_address p partial_address (some (lat, lng)) language cl ag).completed_address
      = (let fa := if cl then clean_address_text c.formatted ag else c.formatted
         if stripWs partial_address.data ≠ [] ∧ hasDigitL partial_address.data = true ∧
             hasDigitL fa.data = false
         then String.mk (firstDigitRun partial_address.data) ++ " " ++ fa
         else fa) := by
  simp only [complete_address, h]
  exact merge_address_data_closed_form partial_address _ _

/-- C4 amended witness: concrete reverse lookup, formatted address with a
digit, so the else-branch fires. -/
theorem C4_witness :
    (complete_address provRevOk "25 main" (some (3, 4)) "es" false false).completed_address
      = (let fa := if false then clean_address_text cand0.formatted false else cand0.formatted
         if stripWs ("25 main" : String).data ≠ [] ∧
             hasDigitL ("25 main" : String).data = true ∧ hasDigitL fa.data = false
         then String.mk (firstDigitRun ("25 main" : String).data) ++ " " ++ fa
         else fa) :=
  C4_reverse_merge_closed_form provRevOk "25 main" "es" false false 3 4 cand0 [] rfl

/-- C5 (code bug): the abbreviation `c/` is listed in the table, but the
word-boundary pattern compiled around it requires a word character after `/`,
so `"c/ gran via 25"` is not expanded: the code returns "C/ Gran Via 25"
instead of the documented "Calle Gran Via 25". -/
theorem C5_normalize_c_slash_not_expanded :
    normalize_address_format "c/ gran via 25" "es" = "C/ Gran Via 25" ∧
    normalize_address_format "c/ gran via 25" "es" ≠ "Calle Gran Via 25" := by
  refine ⟨by decide, by decide⟩

/-- C8: when coordinates are supplied and the reverse lookup returns a
non-empty candidate list, the result has `method_used = "reverse_geocoding"`
and `confidence = 9/10` regardless of the candidate's own confidence, and the
result does not depend on the forward-lookup behaviour of the provider. -/
theorem C8_reverse_success_sets_confidence (p : Provider)
    (partial_address language : String) (cl ag : Bool) (lat lng : Rat)
    (c : Candidate) (cs : List Candidate)
    (h : p.reverse lat lng (some language) cl = .ok (c :: cs)) :
    (complete_address p partial_address (some (lat, lng)) language cl ag).method_used
        = "reverse_geocoding" ∧
    (complete_address p partial_address (some (lat, lng)) language cl ag).confidence
        = 9 / 10 ∧
    ∀ q : Provider, q.reverse = p.reverse →
      complete_address q partial_address (some (lat, lng)) language cl ag
        = complete_address p partial_address (some (lat, lng)) language cl ag := by
  refine ⟨by simp [complete_address, h], by simp [complete_address, h], ?_⟩
  intro q hq
  simp [complete_address, hq, h]

/-- C8 witness: concrete provider with a successful reverse lookup (and a
forward lookup that would raise if consulted). -/
theorem C8_witness :
    (complete_address provRevOk "x" (some (1, 2)) "es" false false).method_used
        = "reverse_geocoding" ∧
    (complete_address provRevOk "x" (some (1, 2)) "es" false false).confidence = 9 / 10 ∧
    ∀ q : Provider, q.reverse = provRevOk.reverse →
      complete_address q "x" (some (1, 2)) "es" false false
        = complete_address provRevOk "x" (some (1, 2)) "es" false false :=
  C8_reverse_success_sets_confidence provRevOk "x" "es" false false 1 2 cand0 [] rfl

/-- C9: `validate_postal_code` on "28013"/ES, "123"/ES and "K1A 0A9"/CA
validates each against exactly the named country's pattern, with the stated
verdicts. -/
theorem C9_validate_postal_code_examples :
    (validate_postal_code "28013" (some "ES")).is_valid = true ∧
    (validate_postal_code "28013" (some "ES")).country_code = some "ES" ∧
    (validate_postal_code "28013" (some "ES")).pattern_used = some "^\\d\x7b5\x7d$" ∧
    (validate_postal_code "123" (some "ES")).is_valid = false ∧
    (validate_postal_code "123" (some "ES")).country_code = some "ES" ∧
    (validate_postal_code "123" (some "ES")).pattern_used = some "^\\d\x7b5\x7d$" ∧
    (validate_postal_code "K1A 0A9" (some "CA")).is_valid = true ∧
    (validate_postal_code "K1A 0A9" (some "CA")).country_code = some "CA" ∧
    (validate_postal_code "K1A 0A9" (some "CA")).pattern_used
        = some "^[A-Z]\\d[A-Z]\\s?\\d[A-Z]\\d$" := by
  refine ⟨by decide, by decide, by decide, by decide, by decide, by decide, by decide,
    by decide, by decide⟩

/-! ### Structure of the completeness report -/

theorem missing_shape (b1 b2 b3 b4 : Bool) :
    ((((if b1 = true then [] else ["street_number"])
        ++ (if b2 = true then [] else ["street_name"])
        ++ (if b3 = true then [] else ["city"])
        ++ (if b4 = true then [] else ["postal_code"])) : List String).Sublist
      ["street_number", "street_name", "city", "postal_code"]) ∧
    (((4 - (((if b1 = true then [] else ["street_number"])
        ++ (if b2 = true then [] else ["street_name"])
        ++ (if b3 = true then [] else ["city"])
        ++ (if b4 = true then [] else ["postal_code"])) : List String).length : Nat) : Rat) / 4
      = (4 - ((((if b1 = true then [] else ["street_number"])
        ++ (if b2 = true then [] else ["street_name"])
        ++ (if b3 = true then [] else ["city"])
        ++ (if b4 = true then [] else ["postal_code"])) : List String).length : Rat)) / 4) := by
  rcases b1 with _ | _ <;> rcases b2 with _ | _ <;> rcases b3 with _ | _ <;>
    rcases b4 with _ | _ <;> exact ⟨by decide, by norm_num⟩

/-- C6 counterexample: on the empty address the report is the special
`["address"]` report: its missing list is not a sublist of the four component
names and its confidence is 0, not (4 - 1)/4. -/
theorem C6_counterexample_empty_address :
    (detect_incomplete_address "").missing_components = ["address"] ∧
    ¬ (detect_incomplete_address "").missing_components.Sublist
        ["street_number", "street_name", "city", "postal_code"] ∧
    (detect_incomplete_address "").confidence ≠
      (4 - ((detect_incomplete_address "").missing_components.length : Rat)) / 4 := by
  refine ⟨by decide, by decide, by norm_num [detect_incomplete_address]⟩

/-- C6 amended: for every non-empty address, `is_complete` holds iff
`missing_components` is empty, `missing_components` is an ordered sublist of
[street_number, street_name, city, postal_code], and `confidence` equals
(4 - |missing|) / 4.  (The empty address instead yields the special
`["address"]` report with confidence 0.) -/
theorem C6_report_structure (address : String) (h : address ≠ "") :
    ((detect_incomplete_address address).is_complete = true ↔
      (detect_incomplete_address address).missing_components = []) ∧
    (detect_incomplete_address address).missing_components.Sublist
      ["street_number", "street_name", "city", "postal_code"] ∧
    (detect_incomplete_address address).confidence =
      (4 - ((detect_incomplete_address address).missing_components.length : Rat)) / 4 := by
  simp only [detect_incomplete_address, if_neg h]
  refine ⟨?_, ?_, ?_⟩
  · simp [List.length_eq_zero]
  · exact (missing_shape _ _ _ _).1
  · exact (missing_shape _ _ _ _).2

/-- C6 amended witness at the non-empty address "barna". -/
theorem C6_witness :
    ("barna" ≠ "") ∧
    (((detect_incomplete_address "barna").is_complete = true ↔
      (detect_incomplete_address "barna").missing_components = []) ∧
    (detect_incomplete_address "barna").missing_components.Sublist
      ["street_number", "street_name", "city", "postal_code"] ∧
    (detect_incomplete_address "barna").confidence =
      (4 - ((detect_incomplete_address "barna").missing_components.length : Rat)) / 4) :=
  ⟨by decide, C6_report_structure "barna" (by decide)⟩

/-- C10: when `enrich_location_data` is given (or forward-resolves) a
coordinate pair in which latitude or longitude is 0.0, the truthiness test
`if lat and lng` fails, the reverse lookup is skipped, and no timezone /
administrative / geographic / quality block is attached — only the timestamp
and version stamps (and, in the forward-resolved case, the coordinates) are
added. -/
theorem C10_enrich_zero_coordinate_skips_reverse (p : Provider) (r : AddressRecord)
    (cl ag : Bool) (lat lng : Rat) (h : lat = 0 ∨ lng = 0) :
    enrich_location_data p r (some (lat, lng)) cl ag
      = { r with enrichment_timestamp := some (), enrichment_version := some "1.0" } ∧
    (∀ addr c rest, r.address = some addr → addr ≠ "" →
      p.forward addr none = .ok (c :: rest) →
      (c.geometry.1 = 0 ∨ c.geometry.2 = 0) →
      enrich_location_data p r none cl ag
        = { r with coordinates := some c.geometry, enrichment_timestamp := some (), enrichment_version := some "1.0" }) := by
  constructor
  · have hcond : ¬(lat ≠ 0 ∧ lng ≠ 0) := by tauto
    simp [enrich_location_data, hcond]
  · intro addr c rest hA hne hf hz
    have hcond : ¬(c.geometry.1 ≠ 0 ∧ c.geometry.2 ≠ 0) := by tauto
    simp [enrich_location_data, hA, hne, hf, hcond]

/-- C10 witness: equator coordinate (0, 5) on a concrete provider and the empty
record. -/
theorem C10_witness :
    ((0 : Rat) = 0 ∨ (5 : Rat) = 0) ∧
    enrich_location_data provFwdBoom { } (some (0, 5)) false false
      = { ({ } : AddressRecord) with enrichment_timestamp := some (), enrichment_version := some "1.0" } :=
  ⟨Or.inl rfl,
    (C10_enrich_zero_coordinate_skips_reverse provFwdBoom { } false false 0 5
      (Or.inl rfl)).1⟩

/-! ### Field preservation through the batch pipeline -/

theorem enrich_preserves (p : Provider) (r : AddressRecord) (co : Option (Rat × Rat))
    (cl ag : Bool) :
    (enrich_location_data p r co cl ag).address = r.address ∧
    (enrich_location_data p r co cl ag).processing_error = r.processing_error ∧
    (enrich_location_data p r co cl ag).error = r.error ∧
    (enrich_location_data p r co cl ag).method_used = r.method_used := by
  rcases co with _ | ⟨a, b⟩
  · rcases hA : r.address with _ | addr
    · simp [enrich_location_data, hA]
    · by_cases he : addr = ""
      · simp [enrich_location_data, hA, he]
      · rcases hf : p.forward addr none with cands | msg
        · rcases cands with _ | ⟨c, cs⟩
          · simp [enrich_location_data, hA, he, hf]
          · by_cases hz : c.geometry.1 ≠ 0 ∧ c.geometry.2 ≠ 0
            · rcases hrev : p.reverse c.geometry.1 c.geometry.2 none cl with cands2 | msg2
              · rcases cands2 with _ | ⟨c2, cs2⟩ <;>
                  simp [enrich_location_data, hA, he, hf, hz, hrev, addEnrichment]
              · simp [enrich_location_data, hA, he, hf, hz, hrev]
            · simp [enrich_location_data, hA, he, hf, hz]
        · simp [enrich_location_data, hA, he, hf]
  · by_cases hz : a ≠ 0 ∧ b ≠ 0
    · rcases hrev : p.reverse a b none cl with cands | msg
      · rcases cands with _ | ⟨c, cs⟩ <;>
          simp [enrich_location_data, hz, hrev, addEnrichment]
      · simp [enrich_location_data, hz, hrev]
    · simp [enrich_location_data, hz]

theorem normalizeStep_preserves (lang : String) (r : AddressRecord) :
    (normalizeStep lang r).address = r.address ∧
    (normalizeStep lang r).processing_error = r.processing_error ∧
    (normalizeStep lang r).error = r.error ∧
    (normalizeStep lang r).method_used = r.method_used := by
  rcases h : r.completed_address with _ | s
  · simp [normalizeStep, h]
  · by_cases hs : s = "" <;> simp [normalizeStep, h, hs]

theorem postalStep_preserves (r : AddressRecord) :
    (postalStep r).address = r.address ∧
    (postalStep r).processing_error = r.processing_error ∧
    (postalStep r).error = r.error ∧
    (postalStep r).method_used = r.method_used := by
  rcases h : r.components with _ | comps
  · simp [postalStep, h]
  · rcases h2 : comps.lookup "postcode" with _ | pc <;> simp [postalStep, h, h2]

theorem pipeline_tail_fields (p : Provider) (lang : String) (cl ag : Bool)
    (r1 : AddressRecord) (C : CompletenessReport) (fc : Option (Rat × Rat)) :
    (qualityStep C fc
      (enrich_location_data p (postalStep (normalizeStep lang r1)) fc cl ag)).error
        = r1.error ∧
    (qualityStep C fc
      (enrich_location_data p (postalStep (normalizeStep lang r1)) fc cl ag)).method_used
        = r1.method_used ∧
    (qualityStep C fc
      (enrich_location_data p (postalStep (normalizeStep lang r1)) fc cl ag)).processing_error
        = r1.processing_error ∧
    (qualityStep C fc
      (enrich_location_data p (postalStep (normalizeStep lang r1)) fc cl ag)).address
        = r1.address := by
  have h1 := normalizeStep_preserves lang r1
  have h2 := postalStep_preserves (normalizeStep lang r1)
  have h3 := enrich_preserves p (postalStep (normalizeStep lang r1)) fc cl ag
  refine ⟨?_, ?_, ?_, ?_⟩
  · show (enrich_location_data p (postalStep (normalizeStep lang r1)) fc cl ag).error
        = r1.error
    rw [h3.2.2.1, h2.2.2.1, h1.2.2.1]
  · show (enrich_location_data p (postalStep (normalizeStep lang r1)) fc cl ag).method_used
        = r1.method_used
    rw [h3.2.2.2, h2.2.2.2, h1.2.2.2]
  · show (enrich_location_data p (postalStep (normalizeStep lang r1)) fc cl ag).processing_error
        = r1.processing_error
    rw [h3.2.1, h2.2.1, h1.2.1]
  · show (enrich_location_data p (postalStep (normalizeStep lang r1)) fc cl ag).address
        = r1.address
    rw [h3.1, h2.1, h1.1]

theorem processOne_ok_preserves (p : Provider) (lang : String) (cl ag : Bool)
    (r : AddressRecord) (co : Option (Rat × Rat)) (hp : parseCoords r = .ok co) :
    (processOne p lang cl ag r).address = r.address ∧
    (processOne p lang cl ag r).processing_error = r.processing_error := by
  rcases co with _ | g <;>
  · simp only [processOne, hp]
    by_cases hif : ((detect_incomplete_address (r.address.getD "")).is_complete = false ∨
        (detect_incomplete_address (r.address.getD "")).confidence < 7 / 10)
    · rw [if_pos hif]
      constructor
      · rw [(pipeline_tail_fields p lang cl ag _ _ _).2.2.2]
        simp [applyCompletion]
      · rw [(pipeline_tail_fields p lang cl ag _ _ _).2.2.1]
        simp [applyCompletion]
    · rw [if_neg hif]
      exact ⟨(pipeline_tail_fields p lang cl ag _ _ _).2.2.2,
        (pipeline_tail_fields p lang cl ag _ _ _).2.2.1⟩

theorem processOne_address (p : Provider) (lang : String) (cl ag : Bool)
    (r : AddressRecord) : (processOne p lang cl ag r).address = r.address := by
  rcases hp : parseCoords r with msg | co
  · simp [processOne, hp]
  · exact (processOne_ok_preserves p lang cl ag r co hp).1

theorem processOne_forward_raise_scenario (p : Provider) (lang : String) (cl ag : Bool)
    (r : AddressRecord) (addr msg : String)
    (hA : r.address = some addr) (hlat : r.lat = none)
    (hs : stripWs addr.data ≠ [])
    (hinc : (detect_incomplete_address addr).is_complete = false ∨
      (detect_incomplete_address addr).confidence < 7 / 10)
    (hf : p.forward addr (some lang) = .raises msg) :
    (processOne p lang cl ag r).error = some msg ∧
    (processOne p lang cl ag r).method_used = some "error" ∧
    (processOne p lang cl ag r).processing_error = r.processing_error := by
  have hp : parseCoords r = .ok none := by
    simp [parseCoords, hlat]
  have hcomp := complete_address_forward_raises p addr none lang cl ag msg (Or.inl rfl) hs hf
  simp only [processOne, hp, hA, Option.getD_some]
  rw [if_pos hinc, hcomp]
  refine ⟨?_, ?_, ?_⟩
  · rw [(pipeline_tail_fields p lang cl ag _ _ _).1]
    simp [applyCompletion]
  · rw [(pipeline_tail_fields p lang cl ag _ _ _).2.1]
    simp [applyCompletion]
  · rw [(pipeline_tail_fields p lang cl ag _ _ _).2.2.1]
    simp [applyCompletion]

/-- C3 amended: `process_address_batch` returns exactly one output record per
input record and preserves the input order (the `address` key at each index is
unchanged); a record whose lat/lng fields convert cleanly is never tagged
`processing_error` — in particular a provider exception never produces one,
because it is caught inside `complete_address` / `enrich_location_data`; a
record whose forward provider call raises during completion instead carries the
message in its `error` field with `method_used = "error"`. -/
theorem C3_batch_provider_exception_isolation (p : Provider) (rs : List AddressRecord)
    (delay : Rat) (lang : String) (cl ag : Bool) :
    (process_address_batch p rs delay lang cl ag).length = rs.length ∧
    (∀ i : Nat, ((process_address_batch p rs delay lang cl ag)[i]?).map
        AddressRecord.address = (rs[i]?).map AddressRecord.address) ∧
    (∀ r co, parseCoords r = .ok co →
      (processOne p lang cl ag r).processing_error = r.processing_error) ∧
    (∀ r addr msg, r.address = some addr → r.lat = none →
      stripWs addr.data ≠ [] →
      ((detect_incomplete_address addr).is_complete = false ∨
        (detect_incomplete_address addr).confidence < 7 / 10) →
      p.forward addr (some lang) = .raises msg →
      (processOne p lang cl ag r).error = some msg ∧
      (processOne p lang cl ag r).method_used = some "error" ∧
      (processOne p lang cl ag r).processing_error = r.processing_error) := by
  refine ⟨?_, ?_, ?_, ?_⟩
  · simp [process_address_batch]
  · intro i
    simp only [process_address_batch, List.getElem?_map]
    rcases h : rs[i]? with _ | r
    · rfl
    · simp [processOne_address]
  · intro r co hp
    exact (processOne_ok_preserves p lang cl ag r co hp).2
  · intro r addr msg hA hlat hs hinc hf
    exact processOne_forward_raise_scenario p lang cl ag r addr msg hA hlat hs hinc hf

/-- C3 amended witness: the two-record batch under `provSel`, whose forward
call raises exactly on the first record's address. -/
theorem C3_witness :
    (process_address_batch provSel [recA, recB] 1 "es" false false).length = 2 ∧
    (processOne provSel "es" false false recA).error = some "boom" ∧
    (processOne provSel "es" false false recA).method_used = some "error" ∧
    (processOne provSel "es" false false recA).processing_error
      = recA.processing_error := by
  have h := C3_batch_provider_exception_isolation provSel [recA, recB] 1 "es" false false
  have h4 := h.2.2.2 recA "a1" "boom" rfl rfl (by decide) (Or.inl (by decide)) (by decide)
  exact ⟨h.1, h4.1, h4.2.1, h4.2.2⟩

/-- C3 counterexample: in the batch where exactly the first record's provider
call raises, the output has 2 records in input order, but zero records bear
`processing_error` (rather than exactly one); the affected record instead
carries the `error` field, and both records receive quality metrics. -/
theorem C3_counterexample_no_processing_error :
    (process_address_batch provSel [recA, recB] 1 "es" false false).length = 2 ∧
    ((process_address_batch provSel [recA, recB] 1 "es" false false).map
        AddressRecord.processing_error) = [none, none] ∧
    ((process_address_batch provSel [recA, recB] 1 "es" false false).map
        AddressRecord.error) = [some "boom", none] ∧
    ((process_address_batch provSel [recA, recB] 1 "es" false false).map
        AddressRecord.address) = [some "a1", some "b2"] ∧
    ((process_address_batch provSel [recA, recB] 1 "es" false false).map
        (fun r => r.quality_metrics.isSome)) = [true, true] := by
  refine ⟨by decide, by decide, by decide, by decide, by decide⟩
